import Mathlib

/-!
Verification of the clamban orchestration server core: a shallow embedding
of the board store routes (src/server/routes.ts), the turn governor
(src/server/turn-governor.ts), the event-delivery primitive
(src/server/event-delivery.ts), the resilient watcher
(src/server/resilient-watcher.ts) and the event-driven cycle supervisor
(src/server/team-manager.ts, event-driven variant), together with proofs
and refutations of the specified properties.

Mutable TypeScript state is embedded as explicit state records with pure
step functions; JS numbers are embedded as Int/Rat; JSON bodies as records
of Option fields (None = key absent); falsy-string defaulting (x || d) is
embedded as an explicit empty-string test.
-/

namespace Clamban

/-- The five ref types of src/types/board.ts (`RefType`). -/
inductive RefType where
  | related
  | blocks
  | blockedBy
  | parent
  | child
deriving DecidableEq, Repr

/-- The `inverseType` map used by the refs endpoints in routes.ts:
related↔related, blocks↔blocked-by, parent↔child. -/
def inverse : RefType → RefType
  | .related => .related
  | .blocks => .blockedBy
  | .blockedBy => .blocks
  | .parent => .child
  | .child => .parent

/-- A task ref `{taskId, type}` (src/types/board.ts `TaskRef`). -/
structure TaskRef where
  taskId : String
  type : RefType
deriving DecidableEq, Repr

/-- A comment `{id, author, text, timestamp}` (src/types/board.ts). -/
structure Comment where
  id : String
  author : String
  text : String
  timestamp : String
deriving DecidableEq, Repr

/-- A file-context entry `{path, note?}` (src/types/board.ts `FileContext`). -/
structure FileContext where
  path : String
  note : Option String
deriving DecidableEq, Repr

/-- A board task (src/types/board.ts `Task`). `column`, `priority` and
`taskType` are embedded as plain strings because the route handlers store
whatever string the request carried (the TS annotations are unchecked
casts at runtime). `order` is a JS number, embedded as Rat. -/
structure Task where
  id : String
  title : String
  description : String
  column : String
  order : Rat
  priority : String
  taskType : String
  tags : List String
  comments : List Comment
  context : List FileContext
  refs : List TaskRef
  assignee : Option String
  createdAt : String
  updatedAt : String
deriving DecidableEq, Repr

/-- Team config `{teamName, projectDir, model?, maxTurns?}`. -/
structure TeamConfig where
  teamName : String
  projectDir : String
  model : Option String
  maxTurns : Option Int
deriving DecidableEq, Repr

/-- Board metadata (src/types/board.ts `BoardMeta`). -/
structure BoardMeta where
  name : String
  createdAt : String
  version : Int
  team : Option TeamConfig
deriving DecidableEq, Repr

/-- The board document (columns are fixed and irrelevant to the claims,
so only meta and tasks are carried). -/
structure Board where
  meta : BoardMeta
  tasks : List Task
deriving DecidableEq, Repr

/-- `board.tasks.find(t => t.id === id)`: first task with the given id. -/
def findTask : List Task → String → Option Task
  | [], _ => none
  | t :: ts, i => if t.id = i then some t else findTask ts i

/-- In-place mutation of the first task with the given id (the JS handlers
obtain the task object by `find` and mutate it inside the array). -/
def updateTask : List Task → String → (Task → Task) → List Task
  | [], _, _ => []
  | t :: ts, i, g => if t.id = i then g t :: ts else t :: updateTask ts i g

/-- Refs of the task with the given id ([] when the task is absent). -/
def refsOf (ts : List Task) (i : String) : List TaskRef :=
  match findTask ts i with
  | some t => t.refs
  | none => []

/-- Number of refs in `rs` that point at task `j` with type `t`. -/
def cnt (rs : List TaskRef) (j : String) (t : RefType) : Nat :=
  rs.countP fun r => decide (r.taskId = j ∧ r.type = t)

/-- Ref symmetry, counted: every ref `(i, t, j)` is mirrored by
`(j, inverse t, i)`, with equal multiplicity.  This is invariant 1 of the
spec stated with multiplicities (which makes it inductive). -/
def RefSym (ts : List Task) : Prop :=
  ∀ i j t, cnt (refsOf ts i) j t = cnt (refsOf ts j) i (inverse t)

/-- Result of one route invocation: HTTP status, the board state afterwards,
and whether `writeBoardSync` ran. -/
structure RouteOut where
  status : Nat
  board : Board
  wrote : Bool
deriving DecidableEq, Repr

end Clamban

namespace Clamban

/-! ## Turn governor (src/server/turn-governor.ts) -/

/-- Closure state of `createTurnGovernor`.  `hasWarning` records whether an
`onBudgetWarning` callback was supplied; `threshold` is `warningThreshold`
(default 0.1). -/
structure GovState where
  maxTurns : Int
  turnsUsed : Int
  exhausted : Bool
  warningFired : Bool
  hasWarning : Bool
  threshold : Rat
deriving DecidableEq, Repr

/-- A fresh governor, as built by `createTurnGovernor`. -/
def GovState.init (maxTurns : Int) (hasWarning : Bool) (threshold : Rat) : GovState :=
  { maxTurns := maxTurns, turnsUsed := 0, exhausted := false
    warningFired := false, hasWarning := hasWarning, threshold := threshold }

/-- Outputs of one `recordTurns` call: the return value, whether
`onBudgetExhausted` was invoked, and whether `onBudgetWarning` was invoked. -/
structure GovOut where
  ret : Bool
  exhaustedFired : Bool
  warningNow : Bool
deriving DecidableEq, Repr

/-- `recordTurns(count)`: add to `turnsUsed`, run `checkWarning`, then fire
`onBudgetExhausted` and return false whenever `turnsUsed >= maxTurns` after
the call.  Note the callback is NOT gated on the `exhausted` flag: it fires
on every call at which the total is at or above the budget. -/
def recordTurns (g : GovState) (count : Int) : GovState × GovOut :=
  let used := g.turnsUsed + count
  let remaining := g.maxTurns - used
  let warnNow := g.hasWarning && !g.warningFired &&
    decide ((remaining : Rat) / (g.maxTurns : Rat) ≤ g.threshold)
  let g1 := { g with turnsUsed := used, warningFired := g.warningFired || warnNow }
  if used ≥ g.maxTurns then
    ({ g1 with exhausted := true }, { ret := false, exhaustedFired := true, warningNow := warnNow })
  else
    (g1, { ret := true, exhaustedFired := false, warningNow := warnNow })

/-- `allocateCycleBudget(perCycleCap = 50)`. -/
def allocateCycleBudget (g : GovState) (perCycleCap : Int := 50) : Int :=
  let remaining := g.maxTurns - g.turnsUsed
  if remaining ≤ 0 then 0 else min perCycleCap remaining

/-- `canSpawn()`. -/
def canSpawn (g : GovState) : Bool :=
  !g.exhausted && g.turnsUsed < g.maxTurns

/-- `reset()`. -/
def resetGov (g : GovState) : GovState :=
  { g with turnsUsed := 0, exhausted := false, warningFired := false }

/-! ## Event delivery (src/server/event-delivery.ts) -/

/-- Behaviour of one `action()` invocation: it either throws or succeeds. -/
inductive ActOutcome where
  | throws
  | succeeds
deriving DecidableEq, Repr

/-- Result of `deliver()`: the resolved boolean, how many times `action`
ran, the `attempts` argument passed to `onExhausted` (none if not called),
and the increments applied to `deliveredCount` / `failedCount`. -/
structure DelivOut where
  ok : Bool
  calls : Nat
  exhaustedWith : Option Nat
  deliveredInc : Nat
  failedInc : Nat
deriving DecidableEq, Repr

/-- The `for (let attempt = 0; attempt <= maxRetries; attempt++)` loop of
`deliver()`.  `out n` is what the n-th `action()` call does; `confirm` is
the optional confirmation predicate (its value on the n-th attempt).
`fuel` counts the loop iterations still allowed (`maxRetries + 1 - attempt`);
running out of fuel is the normal loop exit, which increments `failedCount`
and calls `onExhausted(maxRetries + 1)`. -/
def deliverLoop (out : Nat → ActOutcome) (confirm : Option (Nat → Bool))
    (maxRetries : Nat) : Nat → Nat → DelivOut
  | 0, _ =>
    { ok := false, calls := 0, exhaustedWith := some (maxRetries + 1)
      deliveredInc := 0, failedInc := 1 }
  | fuel + 1, attempt =>
    match out attempt with
    | .succeeds =>
      match confirm with
      | none =>
        { ok := true, calls := 1, exhaustedWith := none, deliveredInc := 1, failedInc := 0 }
      | some c =>
        if c attempt then
          { ok := true, calls := 1, exhaustedWith := none, deliveredInc := 1, failedInc := 0 }
        else
          let rest := deliverLoop out confirm maxRetries fuel (attempt + 1)
          { rest with calls := rest.calls + 1 }
    | .throws =>
      if attempt = maxRetries then
        { ok := false, calls := 1, exhaustedWith := some (attempt + 1)
          deliveredInc := 0, failedInc := 1 }
      else
        let rest := deliverLoop out confirm maxRetries fuel (attempt + 1)
        { rest with calls := rest.calls + 1 }

/-- `deliver()` (one full call, counters as increments). -/
def deliver (out : Nat → ActOutcome) (confirm : Option (Nat → Bool))
    (maxRetries : Nat) : DelivOut :=
  deliverLoop out confirm maxRetries (maxRetries + 1) 0

end Clamban

namespace Clamban

/-! ## Route handlers (src/server/routes.ts `handleRoute`) -/

/-- Mutate the refs (and `updatedAt`) of the first task with the given id,
as the refs handlers do on the task object they found in the array. -/
def updateRefs (ts : List Task) (i : String) (f : List TaskRef → List TaskRef)
    (now : String) : List Task :=
  updateTask ts i fun t => { t with refs := f t.refs, updatedAt := now }

/-- POST /api/tasks/:id/refs.  `targetId = ""` embeds a falsy `body.taskId`
(the `!targetId` guard); a missing/invalid `body.type` is the 400 branch
and is omitted since it leaves the board untouched like the `""` case. -/
def postRefs (b : Board) (id targetId : String) (refType : RefType)
    (now : String) : RouteOut :=
  match findTask b.tasks id with
  | none => { status := 404, board := b, wrote := false }
  | some task =>
    if targetId = "" then { status := 400, board := b, wrote := false }
    else match findTask b.tasks targetId with
    | none => { status := 404, board := b, wrote := false }
    | some _ =>
      if TaskRef.mk targetId refType ∈ task.refs then
        { status := 200, board := b, wrote := false }
      else
        let ts1 := updateRefs b.tasks id (fun rs => rs ++ [⟨targetId, refType⟩]) now
        let targetRefs := refsOf ts1 targetId
        let ts2 :=
          if TaskRef.mk id (inverse refType) ∈ targetRefs then ts1
          else updateRefs ts1 targetId (fun rs => rs ++ [⟨id, inverse refType⟩]) now
        { status := 201, board := { b with tasks := ts2 }, wrote := true }

/-- DELETE /api/tasks/:id/refs/:targetId.  Removes the first ref on the
source task whose `taskId` matches (any type), then the inverse-typed ref
on the target; `updatedAt` is bumped on the source even when nothing was
removed, matching the handler. -/
def deleteRefs (b : Board) (id targetId : String) (now : String) : RouteOut :=
  match findTask b.tasks id with
  | none => { status := 404, board := b, wrote := false }
  | some task =>
    match task.refs.find? (fun r => decide (r.taskId = targetId)) with
    | none =>
      let ts1 := updateRefs b.tasks id (fun rs => rs) now
      { status := 200, board := { b with tasks := ts1 }, wrote := true }
    | some r =>
      let ts1 := updateRefs b.tasks id
        (fun rs => rs.eraseP (fun x => decide (x.taskId = targetId))) now
      match findTask ts1 targetId with
      | none => { status := 200, board := { b with tasks := ts1 }, wrote := true }
      | some _ =>
        let ts2 := updateRefs ts1 targetId
          (fun rs => rs.eraseP (fun x => decide (x.taskId = id ∧ x.type = inverse r.type))) now
        { status := 200, board := { b with tasks := ts2 }, wrote := true }

/-- JS `(x as string) || dflt`: the empty string is falsy. -/
def effStr (o : Option String) (dflt : String) : String :=
  match o with
  | some s => if s = "" then dflt else s
  | none => dflt

/-- Parsed JSON body of POST /api/tasks (None = key absent). -/
structure PostBody where
  title : Option String
  description : Option String
  column : Option String
  priority : Option String
  taskType : Option String
  tags : Option (List String)
deriving DecidableEq, Repr

/-- `Math.max(...columnTasks.map(t => t.order))` for a nonempty list. -/
def listMax : Rat → List Rat → Rat
  | m, [] => m
  | m, x :: xs => listMax (max m x) xs

/-- The `maxOrder` computation of POST /api/tasks: max order among tasks of
the effective column, 0 when that column holds no task. -/
def maxOrderIn (ts : List Task) (col : String) : Rat :=
  match (ts.filter fun t => decide (t.column = col)).map Task.order with
  | [] => 0
  | x :: xs => listMax x xs

/-- POST /api/tasks.  `newId` stands for the random `generateId()` result
and `now` for `new Date().toISOString()`.  Always 201; no validation. -/
def postTask (b : Board) (body : PostBody) (newId now : String) : RouteOut × Task :=
  let col := effStr body.column "backlog"
  let task : Task :=
    { id := newId
      title := effStr body.title "Untitled"
      description := effStr body.description ""
      column := col
      order := maxOrderIn b.tasks col + 1
      priority := effStr body.priority "medium"
      taskType := effStr body.taskType "task"
      tags := body.tags.getD []
      comments := []
      context := []
      refs := []
      assignee := none
      createdAt := now
      updatedAt := now }
  ({ status := 201, board := { b with tasks := b.tasks ++ [task] }, wrote := true }, task)

/-- Parsed JSON body of PATCH /api/tasks/:id; `key in body` is isSome. -/
structure PatchBody where
  title : Option String
  description : Option String
  column : Option String
  order : Option Rat
  priority : Option String
  taskType : Option String
  tags : Option (List String)
  context : Option (List FileContext)
  assignee : Option String
deriving DecidableEq, Repr

/-- Field-wise application of a PATCH body to a task (the whitelist loop),
followed by the unconditional `updatedAt` bump. -/
def applyPatch (t : Task) (p : PatchBody) (now : String) : Task :=
  { t with
    title := p.title.getD t.title
    description := p.description.getD t.description
    column := p.column.getD t.column
    order := p.order.getD t.order
    priority := p.priority.getD t.priority
    taskType := p.taskType.getD t.taskType
    tags := p.tags.getD t.tags
    context := p.context.getD t.context
    assignee := match p.assignee with | some a => some a | none => t.assignee
    updatedAt := now }

/-- PATCH /api/tasks/:id.  200 on a known id (no validation of any field),
404 otherwise. -/
def patchTask (b : Board) (id : String) (p : PatchBody) (now : String) : RouteOut :=
  match findTask b.tasks id with
  | none => { status := 404, board := b, wrote := false }
  | some _ =>
    { status := 200
      board := { b with tasks := updateTask b.tasks id (fun t => applyPatch t p now) }
      wrote := true }

/-- DELETE /api/tasks/:id.  The handler only splices the task out of the
array; refs held by other tasks are untouched. -/
def deleteTask (b : Board) (id : String) : RouteOut :=
  match findTask b.tasks id with
  | none => { status := 404, board := b, wrote := false }
  | some _ =>
    { status := 200
      board := { b with tasks := b.tasks.eraseP (fun t => decide (t.id = id)) }
      wrote := true }

end Clamban

namespace Clamban

/-! ## POSIX path model for POST /api/tasks/:id/context -/

/-- Character-level string-begins-with (the semantics of JS
`String.prototype.startsWith`). -/
def listBegins : List Char → List Char → Bool
  | [], _ => true
  | _ :: _, [] => false
  | a :: as, b :: bs => a == b && listBegins as bs

/-- `path.isAbsolute` on POSIX: the path starts with a slash. -/
def isAbsolute (p : String) : Bool :=
  match p.data with
  | [] => false
  | c :: _ => c = '/'

/-- Split a character list on `/`. -/
def splitSlash : List Char → List (List Char)
  | [] => [[]]
  | c :: cs =>
    if c = '/' then [] :: splitSlash cs
    else
      match splitSlash cs with
      | [] => [[c]]
      | seg :: rest => (c :: seg) :: rest

/-- Segment normalization of `path.resolve`: drop empty and `.` segments,
let `..` pop the previous segment (staying at the root when empty). -/
def normSegs (segs : List (List Char)) : List (List Char) :=
  segs.foldl
    (fun acc seg =>
      if seg = [] ∨ seg = ['.'] then acc
      else if seg = ['.', '.'] then acc.dropLast
      else acc ++ [seg])
    []

/-- Rejoin path segments with `/`. -/
def joinSegs : List (List Char) → List Char
  | [] => []
  | [s] => s
  | s :: rest => s ++ '/' :: joinSegs rest

/-- `path.resolve(p)` for an absolute `p`. -/
def resolveOne (p : String) : String :=
  String.mk ('/' :: joinSegs (normSegs (splitSlash p.data)))

/-- `path.resolve(base, rel)` for an absolute `base` and relative `rel`. -/
def resolveAbs (base rel : String) : String :=
  resolveOne (base ++ "/" ++ rel)

/-- The escape check of the context handler:
`filePath.startsWith(resolve(projectDir) + sep) || filePath === resolve(projectDir)`. -/
def underProjectDir (projectDir filePath : String) : Bool :=
  listBegins (resolveOne projectDir ++ "/").data filePath.data ||
    filePath = resolveOne projectDir

/-- POST /api/tasks/:id/context.  Mirrors the handler's guard order: task
lookup, `path` required (empty string is falsy), absolute path rejected,
team/projectDir required, escape check, then dedupe by resolved path. -/
def postContext (b : Board) (id : String) (rawPath : Option String)
    (note : Option String) (now : String) : RouteOut :=
  match findTask b.tasks id with
  | none => { status := 404, board := b, wrote := false }
  | some task =>
    match rawPath with
    | none => { status := 400, board := b, wrote := false }
    | some raw =>
      if raw = "" then { status := 400, board := b, wrote := false }
      else if isAbsolute raw then { status := 400, board := b, wrote := false }
      else match b.meta.team with
      | none => { status := 400, board := b, wrote := false }
      | some team =>
        if team.projectDir = "" then { status := 400, board := b, wrote := false }
        else
          let filePath := resolveAbs team.projectDir raw
          if !underProjectDir team.projectDir filePath then
            { status := 400, board := b, wrote := false }
          else if task.context.any (fun f => decide (f.path = filePath)) then
            { status := 201, board := b, wrote := false }
          else
            let addCtx : Task → Task := fun t =>
              { t with context := t.context ++ [⟨filePath, note⟩], updatedAt := now }
            { status := 201
              board := { b with tasks := updateTask b.tasks id addCtx }
              wrote := true }

end Clamban

namespace Clamban

/-! ## Event-driven cycle supervisor (src/server/team-manager.ts,
event-driven variant: module state + `spawnCycle` exit handler +
`notifyBoardChanged` + `stopTeam`) -/

/-- The supervisor's module-level mutable state.  `debounceMs` is the delay
of the armed `debounceTimer` (none when no timer is pending); times are
milliseconds on a monotone clock. -/
structure SupState where
  teamActive : Bool
  leadAlive : Bool
  pendingBoardChange : Bool
  debounceMs : Option Nat
  lastSpawnTime : Nat
  totalTurnsUsed : Int
  maxTurns : Int
deriving DecidableEq, Repr

/-- The `leadProcess.on("exit", ...)` handler of `spawnCycle`, taken at
clock time `now`.  Returns the new state and whether `onExit` fired (it
fires on every branch).  The crash-guard branch (`elapsed < 5000`) returns
without touching `teamActive` or arming any timer. -/
def handleExit (s : SupState) (now : Nat) : SupState × Bool :=
  let s1 := { s with leadAlive := false }
  if !s1.teamActive then (s1, true)
  else if now - s1.lastSpawnTime < 5000 then (s1, true)
  else if s1.totalTurnsUsed ≥ s1.maxTurns then ({ s1 with teamActive := false }, true)
  else if s1.pendingBoardChange then ({ s1 with debounceMs := some 1000 }, true)
  else (s1, true)

/-- `notifyBoardChanged()`: ignored when the team is inactive; flags a
pending change while the child runs; otherwise (re)arms the 3 s idle
debounce. -/
def notifyBoardChanged (s : SupState) : SupState :=
  if !s.teamActive then s
  else if s.leadAlive then { s with pendingBoardChange := true }
  else { s with debounceMs := some 3000 }

/-- `stopTeam()` as it affects the supervisor FSM: clear `teamActive` and
the pending flag, cancel the debounce timer, drop the child handle. -/
def stopSup (s : SupState) : SupState :=
  { s with teamActive := false, pendingBoardChange := false
           debounceMs := none, leadAlive := false }

end Clamban

namespace Clamban

/-! ## Resilient watcher (src/server/resilient-watcher.ts) -/

/-- Closure state of `createResilientWatcher`.  `timerArmed` models
whether a heartbeat `setTimeout` is pending (`clearTimeout` disarms it:
a cleared timer never fires). -/
structure WState where
  isActive : Bool
  reinitCount : Nat
  timerArmed : Bool
  hbMs : Nat
deriving DecidableEq, Repr

/-- `resetHeartbeat()`: no-op when the heartbeat is disabled or the
watcher is inactive; otherwise replace the pending timer with a fresh one. -/
def resetHeartbeat (s : WState) : WState :=
  if s.hbMs = 0 ∨ s.isActive = false then s else { s with timerArmed := true }

/-- `start()`. -/
def wStart (s : WState) : WState :=
  resetHeartbeat { s with isActive := true, reinitCount := 0 }

/-- `stop()`: deactivate, tear down subscriptions, clear the timer. -/
def wStop (s : WState) : WState :=
  { s with isActive := false, timerArmed := false }

/-- Expiry of the heartbeat timer.  A disarmed timer cannot fire; an armed
one runs the callback, which bails out when inactive and otherwise
re-initializes (bumping `reinitCount`) and re-arms itself. -/
def wTimerFire (s : WState) : WState :=
  if s.timerArmed = false then s
  else
    let s1 := { s with timerArmed := false }
    if s1.isActive = false then s1
    else resetHeartbeat { s1 with reinitCount := s1.reinitCount + 1 }

/-- External stimuli of the watcher. -/
inductive WEv where
  | fsEvent
  | manualHb
  | timerFire
  | stopEv
  | startEv
deriving DecidableEq, Repr

/-- One step of the watcher under a stimulus.  An incoming OS event runs
`watchCallback`, which resets the heartbeat (`onChange` exceptions are
swallowed and cannot alter the closure state). -/
def wStep (s : WState) : WEv → WState
  | .fsEvent => resetHeartbeat s
  | .manualHb => resetHeartbeat s
  | .timerFire => wTimerFire s
  | .stopEv => wStop s
  | .startEv => wStart s

/-- Run a sequence of stimuli. -/
def wRun (s : WState) : List WEv → WState :=
  List.foldl wStep s

end Clamban

namespace Clamban

/-! ## Search endpoint (GET /api/tasks/search) -/

/-- Case-fold a string (JS `toLowerCase` on the relevant range). -/
def lowerChars (s : String) : List Char :=
  s.data.map Char.toLower

/-- `hay` begins with `needle`, character-wise. -/
def beginsWith : List Char → List Char → Bool
  | [], _ => true
  | _ :: _, [] => false
  | a :: as, b :: bs => a == b && beginsWith as bs

/-- `needle` occurs as a contiguous substring of `hay`. -/
def occursIn (needle hay : List Char) : Bool :=
  match hay with
  | [] => beginsWith needle []
  | _ :: t => beginsWith needle hay || occursIn needle t

/-- Case-insensitive substring match (JS `a.toLowerCase().includes(q.toLowerCase())`). -/
def containsCI (hay q : String) : Bool :=
  occursIn (lowerChars q) (lowerChars hay)

/-- Modelled from the spec: the search predicate of GET /api/tasks/search,
whose implementation is absent from src/ (the endpoint appears only in the
test suite).  Spec §4.F: substring match, case-insensitive, on
title/description/tag. -/
def taskMatches (t : Task) (q : String) : Bool :=
  containsCI t.title q || containsCI t.description q || t.tags.any (fun tg => containsCI tg q)

/-- Modelled from the spec: the effective result limit of
GET /api/tasks/search, whose implementation is absent from src/.  Spec
§4.F: `limit default 20, cap 100, non-numeric falls back to default`. -/
def searchLimit (limitParam : Option String) : Nat :=
  min ((limitParam.bind String.toNat?).getD 20) 100

/-- Modelled from the spec: the optional column filter of
GET /api/tasks/search, whose implementation is absent from src/. -/
def colOk (column : Option String) (t : Task) : Bool :=
  match column with
  | none => true
  | some c => decide (t.column = c)

/-- Modelled from the spec: the result list of GET /api/tasks/search,
whose implementation is absent from src/.  Spec §4.F: matching tasks,
optionally filtered to a column, truncated to the effective limit. -/
def searchTasks (ts : List Task) (q : String) (column : Option String)
    (limitParam : Option String) : List Task :=
  (ts.filter fun t => taskMatches t q && colOk column t).take (searchLimit limitParam)

/-- Modelled from the spec: the route for GET /api/tasks/search, whose
implementation is absent from src/.  A missing `q` is a 400 with `{error}`
(per the test suite); otherwise 200 with the matching tasks. -/
def searchRoute (b : Board) (q : Option String) (column : Option String)
    (limitParam : Option String) : Nat × List Task :=
  match q with
  | none => (400, [])
  | some qs => (200, searchTasks b.tasks qs column limitParam)

end Clamban

namespace Clamban

/-! ## Concrete fixtures used by counterexamples and witnesses -/

/-- A meta block with no team connected. -/
def sampleMeta : BoardMeta :=
  { name := "test", createdAt := "2025-01-01", version := 1, team := none }

/-- A task fixture with the route handlers' defaults. -/
def mkTask (i ttl col : String) (ord : Rat) (rs : List TaskRef) : Task :=
  { id := i, title := ttl, description := "", column := col, order := ord
    priority := "medium", taskType := "task", tags := [], comments := []
    context := [], refs := rs, assignee := none
    createdAt := "t0", updatedAt := "t0" }

/-- Two unlinked tasks (scenario S1 before any ref is added). -/
def boardAB : Board :=
  { meta := sampleMeta
    tasks := [mkTask "a1" "A" "backlog" 1 [], mkTask "b2" "B" "backlog" 2 []] }

/-- Two tasks linked blocks/blocked-by. -/
def boardLinked : Board :=
  { meta := sampleMeta
    tasks := [mkTask "a1" "A" "backlog" 1 [⟨"b2", .blocks⟩],
              mkTask "b2" "B" "backlog" 2 [⟨"a1", .blockedBy⟩]] }

/-- A board with no tasks. -/
def emptyBoard : Board := { meta := sampleMeta, tasks := [] }

/-- A board with a team connected at projectDir /tmp/p (scenario S3). -/
def boardCtx : Board :=
  { meta := { sampleMeta with
      team := some { teamName := "team", projectDir := "/tmp/p"
                     model := none, maxTurns := none } }
    tasks := [mkTask "t1" "T" "backlog" 1 []] }

/-- A POST body carrying an unknown column value. -/
def bogusBody : PostBody :=
  { title := some "x", description := none, column := some "bogus"
    priority := none, taskType := none, tags := none }

/-- An empty POST body (all keys absent). -/
def emptyPostBody : PostBody :=
  { title := none, description := none, column := none
    priority := none, taskType := none, tags := none }

/-- A PATCH body carrying only an unknown column value. -/
def bogusPatch : PatchBody :=
  { title := none, description := none, column := some "nonsense"
    order := none, priority := none, taskType := none, tags := none
    context := none, assignee := none }

/-- A governor with a budget of 10 and no warning callback. -/
def gov10 : GovState := GovState.init 10 false (1 / 10)

/-- Supervisor state right after the first spawn of a fresh start. -/
def supRunning : SupState :=
  { teamActive := true, leadAlive := true, pendingBoardChange := false
    debounceMs := none, lastSpawnTime := 0, totalTurnsUsed := 0, maxTurns := 1000 }

/-- A started watcher with heartbeat enabled and some history. -/
def wFixture : WState :=
  { isActive := true, reinitCount := 2, timerArmed := true, hbMs := 50 }

/-- A board for exercising the search endpoint. -/
def searchBoard : Board :=
  { meta := sampleMeta
    tasks := [mkTask "1" "Fix Authentication Bug" "backlog" 1 [],
              mkTask "2" "Add logging" "backlog" 2 []] }

end Clamban

namespace Clamban

/-! ## C3: turn-governor exhaustion callback -/

/-- C3 counterexample: with maxTurns = 10 and no reset in between,
`recordTurns 10` fires `onBudgetExhausted`, and the very next
`recordTurns 1` in the same epoch fires it AGAIN, contradicting
"invoked at most once ... and never again on later recordTurns calls in
the same epoch". -/
theorem C3_counterexample :
    (recordTurns gov10 10).2.exhaustedFired = true ∧
    (recordTurns (recordTurns gov10 10).1 1).2.exhaustedFired = true := by
  constructor <;> rfl

/-- C3 (amended): `onBudgetExhausted` is invoked on exactly those
`recordTurns` calls after which `turnsUsed ≥ maxTurns` — it fires on the
call at which the budget is first reached, but also fires again on every
later such call in the same epoch (the `exhausted` flag does not gate the
callback); the return value is false on the same calls. -/
theorem C3_exhausted_fires_every_exceeding_call (g : GovState) (n : Int) :
    ((recordTurns g n).2.exhaustedFired = true ↔ g.turnsUsed + n ≥ g.maxTurns) ∧
    ((recordTurns g n).2.ret = false ↔ g.turnsUsed + n ≥ g.maxTurns) ∧
    (recordTurns g n).1.turnsUsed = g.turnsUsed + n ∧
    (recordTurns g n).1.maxTurns = g.maxTurns := by
  unfold recordTurns
  by_cases h : g.turnsUsed + n ≥ g.maxTurns <;> simp [h]

/-- C3 witness: the amended theorem evaluated on the concrete governor. -/
theorem C3_witness :
    (recordTurns gov10 10).2.exhaustedFired = true ∧
    (recordTurns gov10 3).2.exhaustedFired = false := by
  refine ⟨(C3_exhausted_fires_every_exceeding_call gov10 10).1.mpr (by decide), ?_⟩
  cases hf : (recordTurns gov10 3).2.exhaustedFired
  · rfl
  · exact absurd ((C3_exhausted_fires_every_exceeding_call gov10 3).1.mp hf) (by decide)

/-! ## C7: event-delivery retry count -/

/-- The delivery loop on an always-throwing action, from any attempt index
within the loop: the remaining `d + 1` attempts all run, `onExhausted`
receives `maxRetries + 1`, and the result is failure. -/
theorem deliverLoop_throws_eq (confirm : Option (Nat → Bool)) (k : Nat) :
    ∀ d a, a + d = k →
      deliverLoop (fun _ => ActOutcome.throws) confirm k (d + 1) a =
        { ok := false, calls := d + 1, exhaustedWith := some (k + 1)
          deliveredInc := 0, failedInc := 1 } := by
  intro d
  induction d with
  | zero =>
    intro a ha
    have hak : a = k := by omega
    subst hak
    simp [deliverLoop]
  | succ d ih =>
    intro a ha
    have h2 : ¬(a = k) := by omega
    show (match (ActOutcome.throws : ActOutcome) with
      | .succeeds =>
        match confirm with
        | none =>
          ({ ok := true, calls := 1, exhaustedWith := none
             deliveredInc := 1, failedInc := 0 } : DelivOut)
        | some c =>
          if c a then
            { ok := true, calls := 1, exhaustedWith := none
              deliveredInc := 1, failedInc := 0 }
          else
            let rest := deliverLoop (fun _ => ActOutcome.throws) confirm k (d + 1) (a + 1)
            { rest with calls := rest.calls + 1 }
      | .throws =>
        if a = k then
          { ok := false, calls := 1, exhaustedWith := some (a + 1)
            deliveredInc := 0, failedInc := 1 }
        else
          let rest := deliverLoop (fun _ => ActOutcome.throws) confirm k (d + 1) (a + 1)
          { rest with calls := rest.calls + 1 }) = _
    simp only [h2, if_false]
    rw [ih (a + 1) (by omega)]

/-- C7: with `maxRetries = k` and an action that throws on every
invocation, `deliver()` calls the action exactly `k + 1` times, increments
`failedCount` by one (and `deliveredCount` by zero), calls `onExhausted`
once with attempt count `k + 1`, and resolves false — for any confirmation
predicate. -/
theorem C7_deliver_exhausts (k : Nat) (confirm : Option (Nat → Bool)) :
    deliver (fun _ => ActOutcome.throws) confirm k =
      { ok := false, calls := k + 1, exhaustedWith := some (k + 1)
        deliveredInc := 0, failedInc := 1 } :=
  deliverLoop_throws_eq confirm k k 0 (by omega)

/-- C7 witness: the theorem evaluated at maxRetries = 2. -/
theorem C7_witness :
    deliver (fun _ => ActOutcome.throws) none 2 =
      { ok := false, calls := 3, exhaustedWith := some 3
        deliveredInc := 0, failedInc := 1 } :=
  C7_deliver_exhausts 2 none

end Clamban

namespace Clamban

/-! ## C2: supervisor crash guard -/

/-- C2 counterexample: the child of a freshly started, active team exits
1000 ms after spawn (inside the crash-guard window).  The supervisor does
NOT transition to STOPPED: `teamActive` stays true, and a subsequent
`notifyBoardChanged()` is not ignored — it arms the 3 s idle debounce,
which leads to a respawn. -/
theorem C2_counterexample :
    (handleExit supRunning 1000).1.teamActive = true ∧
    (notifyBoardChanged (handleExit supRunning 1000).1).debounceMs = some 3000 := by
  constructor <;> rfl

/-- C2 (amended): when the lead child exits less than 5 s after it was
spawned and the team was not explicitly stopped, the exit handler fires
`onExit`, clears the child handle, and arms no respawn timer — but it does
not transition to STOPPED: `teamActive` remains true, and a later
board-change notification is accepted and schedules a new spawn via the
3 s idle debounce. -/
theorem C2_crash_guard_no_stop (s : SupState) (now : Nat)
    (hActive : s.teamActive = true) (hFast : now - s.lastSpawnTime < 5000) :
    (handleExit s now).2 = true ∧
    (handleExit s now).1.leadAlive = false ∧
    (handleExit s now).1.debounceMs = s.debounceMs ∧
    (handleExit s now).1.teamActive = true ∧
    (notifyBoardChanged (handleExit s now).1).debounceMs = some 3000 := by
  unfold handleExit notifyBoardChanged
  simp [hActive, hFast]

/-- C2 witness: the amended theorem evaluated on the concrete state, with
both hypotheses discharged there. -/
theorem C2_crash_guard_witness :
    supRunning.teamActive = true ∧ 1000 - supRunning.lastSpawnTime < 5000 ∧
    ((handleExit supRunning 1000).2 = true ∧
     (handleExit supRunning 1000).1.leadAlive = false ∧
     (handleExit supRunning 1000).1.debounceMs = supRunning.debounceMs ∧
     (handleExit supRunning 1000).1.teamActive = true ∧
     (notifyBoardChanged (handleExit supRunning 1000).1).debounceMs = some 3000) :=
  ⟨rfl, by decide, C2_crash_guard_no_stop supRunning 1000 rfl (by decide)⟩

/-! ## C9: watcher stop finality -/

/-- Once inactive with no armed timer, no stimulus other than `start()`
can reactivate the watcher, re-arm its timer, or change `reinitCount`. -/
theorem wRun_inactive (s : WState) (hA : s.isActive = false)
    (hT : s.timerArmed = false) :
    ∀ evs : List WEv, WEv.startEv ∉ evs →
      (wRun s evs).isActive = false ∧ (wRun s evs).timerArmed = false ∧
      (wRun s evs).reinitCount = s.reinitCount := by
  intro evs
  induction evs generalizing s with
  | nil => intro _; exact ⟨hA, hT, rfl⟩
  | cons e es ih =>
    intro hmem
    have he : e ≠ WEv.startEv := fun h => hmem (h ▸ List.mem_cons_self _ _)
    have hes : WEv.startEv ∉ es := fun h => hmem (List.mem_cons_of_mem _ h)
    have hstep : (wStep s e).isActive = false ∧ (wStep s e).timerArmed = false ∧
        (wStep s e).reinitCount = s.reinitCount := by
      cases e with
      | fsEvent => simp [wStep, resetHeartbeat, hA, hT]
      | manualHb => simp [wStep, resetHeartbeat, hA, hT]
      | timerFire => simp [wStep, wTimerFire, hA, hT]
      | stopEv => simp [wStep, wStop]
      | startEv => exact absurd rfl he
    have hrec := ih (s := wStep s e) hstep.1 hstep.2.1 hes
    refine ⟨hrec.1, hrec.2.1, ?_⟩
    rw [show wRun s (e :: es) = wRun (wStep s e) es from rfl, hrec.2.2, hstep.2.2]

/-- C9: after `stop()`, the watcher is inactive, a second `stop()` changes
nothing, and no later stimulus history (heartbeat expiries, OS events,
manual heartbeats, further stops — anything except a new `start()`) ever
fires a heartbeat re-initialization: `reinitCount` stays what it was at
stop time, for every heartbeat configuration and prior state. -/
theorem C9_stop_finality (s : WState) (evs : List WEv)
    (h : WEv.startEv ∉ evs) :
    (wRun (wStop s) evs).isActive = false ∧
    (wRun (wStop s) evs).reinitCount = (wStop s).reinitCount ∧
    wStop (wStop s) = wStop s := by
  have hrun := wRun_inactive (wStop s) rfl rfl evs h
  exact ⟨hrun.1, hrun.2.2, rfl⟩

/-- C9 witness: the theorem on a concrete watcher and stimulus history. -/
theorem C9_witness :
    WEv.startEv ∉ [WEv.fsEvent, WEv.timerFire, WEv.stopEv, WEv.manualHb] ∧
    ((wRun (wStop wFixture) [WEv.fsEvent, WEv.timerFire, WEv.stopEv, WEv.manualHb]).isActive = false ∧
     (wRun (wStop wFixture) [WEv.fsEvent, WEv.timerFire, WEv.stopEv, WEv.manualHb]).reinitCount =
       (wStop wFixture).reinitCount ∧
     wStop (wStop wFixture) = wStop wFixture) :=
  ⟨by decide,
   C9_stop_finality wFixture [WEv.fsEvent, WEv.timerFire, WEv.stopEv, WEv.manualHb] (by decide)⟩

end Clamban

namespace Clamban

/-! ## Generic lemmas about the task-list and ref-count primitives -/

theorem findTask_mem : ∀ {ts : List Task} {i : String} {u : Task},
    findTask ts i = some u → u ∈ ts := by
  intro ts
  induction ts with
  | nil => intro i u h; simp [findTask] at h
  | cons a as ih =>
    intro i u h
    unfold findTask at h
    by_cases ha : a.id = i
    · rw [if_pos ha] at h
      exact (Option.some.inj h) ▸ List.mem_cons_self _ _
    · rw [if_neg ha] at h
      exact List.mem_cons_of_mem _ (ih h)

theorem findTask_id : ∀ {ts : List Task} {i : String} {u : Task},
    findTask ts i = some u → u.id = i := by
  intro ts
  induction ts with
  | nil => intro i u h; simp [findTask] at h
  | cons a as ih =>
    intro i u h
    unfold findTask at h
    by_cases ha : a.id = i
    · rw [if_pos ha] at h; rw [← Option.some.inj h]; exact ha
    · rw [if_neg ha] at h; exact ih h

theorem findTask_updateTask (ts : List Task) (i x : String) (g : Task → Task)
    (hg : ∀ t, (g t).id = t.id) :
    findTask (updateTask ts i g) x =
      if x = i then (findTask ts i).map g else findTask ts x := by
  induction ts with
  | nil => simp [findTask, updateTask]
  | cons a as ih =>
    unfold updateTask
    by_cases hai : a.id = i
    · rw [if_pos hai]
      by_cases hxi : x = i
      · subst hxi
        unfold findTask
        rw [if_pos (by rw [hg a]; exact hai), if_pos rfl, if_pos hai]
        rfl
      · unfold findTask
        rw [if_neg (by rw [hg a]; exact fun h => hxi (h ▸ hai.symm ▸ rfl)), if_neg hxi]
        by_cases hax : a.id = x
        · exact absurd (hax ▸ hai) fun h => hxi (hax ▸ hai)
        · rw [if_neg hax]
    · rw [if_neg hai]
      unfold findTask
      by_cases hax : a.id = x
      · have hxi : ¬(x = i) := fun h => hai (h ▸ hax)
        rw [if_pos hax, if_neg hxi, if_pos hax]
      · rw [if_neg hax, ih]
        by_cases hxi : x = i
        · rw [if_pos hxi, if_pos hxi, if_neg hai]
        · rw [if_neg hxi, if_neg hxi, if_neg hax]

theorem refsOf_findTask_none {ts : List Task} {i : String}
    (h : findTask ts i = none) : refsOf ts i = [] := by
  unfold refsOf; rw [h]

theorem findTask_updateRefs_found {ts : List Task} {i : String} {u : Task}
    (h : findTask ts i = some u) (f : List TaskRef → List TaskRef) (now : String) :
    findTask (updateRefs ts i f now) i =
      some { u with refs := f u.refs, updatedAt := now } := by
  unfold updateRefs
  rw [findTask_updateTask ts i i
    (fun t => { t with refs := f t.refs, updatedAt := now }) (fun t => rfl),
    if_pos rfl, h]
  rfl

theorem findTask_updateRefs_ne {ts : List Task} {i x : String} (hx : x ≠ i)
    (f : List TaskRef → List TaskRef) (now : String) :
    findTask (updateRefs ts i f now) x = findTask ts x := by
  unfold updateRefs
  rw [findTask_updateTask ts i x
    (fun t => { t with refs := f t.refs, updatedAt := now }) (fun t => rfl),
    if_neg hx]

theorem refsOf_updateRefs_found {ts : List Task} {i : String} {u : Task}
    (h : findTask ts i = some u) (f : List TaskRef → List TaskRef) (now : String) :
    refsOf (updateRefs ts i f now) i = f u.refs := by
  unfold refsOf
  rw [findTask_updateRefs_found h f now]

theorem refsOf_updateRefs_ne {ts : List Task} {i x : String} (hx : x ≠ i)
    (f : List TaskRef → List TaskRef) (now : String) :
    refsOf (updateRefs ts i f now) x = refsOf ts x := by
  unfold refsOf
  rw [findTask_updateRefs_ne hx f now]

theorem cnt_nil (j : String) (t : RefType) : cnt [] j t = 0 := rfl

theorem cnt_append (rs l : List TaskRef) (j : String) (t : RefType) :
    cnt (rs ++ l) j t = cnt rs j t + cnt l j t := by
  unfold cnt; exact List.countP_append _ _ _

theorem cnt_singleton (x : TaskRef) (j : String) (t : RefType) :
    cnt [x] j t = if x.taskId = j ∧ x.type = t then 1 else 0 := by
  unfold cnt
  rw [List.countP_cons, List.countP_nil]
  by_cases h : x.taskId = j ∧ x.type = t
  · rw [if_pos h]; simp [h]
  · rw [if_neg h]; simp [h]

theorem mem_iff_cnt_pos {rs : List TaskRef} {j : String} {t : RefType} :
    TaskRef.mk j t ∈ rs ↔ 0 < cnt rs j t := by
  unfold cnt
  rw [List.countP_pos_iff]
  constructor
  · intro h; exact ⟨_, h, by simp⟩
  · rintro ⟨r, hr, hp⟩
    have hrt : r = TaskRef.mk j t := by
      cases r with
      | mk a b =>
        have hab : a = j ∧ b = t := by simpa using hp
        rw [hab.1, hab.2]
    exact hrt ▸ hr

theorem cnt_eq_zero_of_not_mem {rs : List TaskRef} {j : String} {t : RefType}
    (h : TaskRef.mk j t ∉ rs) : cnt rs j t = 0 := by
  by_contra hne
  exact h (mem_iff_cnt_pos.mpr (Nat.pos_of_ne_zero hne))

theorem cnt_eraseP_of_find {p : TaskRef → Bool} {rs : List TaskRef} {r : TaskRef}
    (h : rs.find? p = some r) (j : String) (t : RefType) :
    cnt (rs.eraseP p) j t + (if r.taskId = j ∧ r.type = t then 1 else 0) = cnt rs j t := by
  induction rs with
  | nil => simp [List.find?] at h
  | cons a as ih =>
    cases hpa : p a with
    | true =>
      have har : a = r := by
        have h' := h
        simp only [List.find?, hpa] at h'
        exact Option.some.inj h'
      subst har
      rw [List.eraseP_cons_of_pos hpa]
      unfold cnt
      rw [List.countP_cons]
      by_cases hm : a.taskId = j ∧ a.type = t
      · rw [if_pos hm]; simp [hm]
      · rw [if_neg hm]; simp [hm]
    | false =>
      have h' : as.find? p = some r := by
        have h'' := h
        simp only [List.find?, hpa] at h''
        exact h''
      rw [List.eraseP_cons_of_neg (by simp [hpa])]
      unfold cnt
      rw [List.countP_cons, List.countP_cons]
      have hih := ih h'
      unfold cnt at hih
      omega

theorem eraseP_of_find_none {p : TaskRef → Bool} {rs : List TaskRef}
    (h : rs.find? p = none) : rs.eraseP p = rs := by
  apply List.eraseP_of_forall_not
  intro a ha
  exact List.find?_eq_none.mp h a ha

theorem find?_pinned {rs : List TaskRef} {j : String} {t : RefType}
    (h : 0 < cnt rs j t) :
    rs.find? (fun x => decide (x.taskId = j ∧ x.type = t)) = some (TaskRef.mk j t) := by
  have hmem : TaskRef.mk j t ∈ rs := mem_iff_cnt_pos.mpr h
  have hsome : (rs.find? (fun x => decide (x.taskId = j ∧ x.type = t))).isSome := by
    rw [List.find?_isSome]
    exact ⟨_, hmem, by simp⟩
  cases hf : rs.find? (fun x => decide (x.taskId = j ∧ x.type = t)) with
  | none => rw [hf] at hsome; simp at hsome
  | some r =>
    have hp := List.find?_some hf
    have : r.taskId = j ∧ r.type = t := by simpa using hp
    cases r
    simp only at this
    rw [this.1, this.2]

theorem inverse_inverse (t : RefType) : inverse (inverse t) = t := by
  cases t <;> rfl

theorem inverse_inj {a b : RefType} : inverse a = inverse b ↔ a = b := by
  constructor
  · intro h
    rw [← inverse_inverse a, h, inverse_inverse]
  · intro h; rw [h]

end Clamban

namespace Clamban

/-! ## Symmetry-transfer lemmas: a board whose ref counts differ from a
symmetric board by one mirrored pair (or one self-inverse singleton) is
itself symmetric. -/

theorem indicator_pair_symm (A B : String) (t0 : RefType) (i j : String) (t : RefType) :
    ((if i = A ∧ B = j ∧ t0 = t then 1 else 0) +
      (if i = B ∧ A = j ∧ inverse t0 = t then 1 else 0) : Nat) =
    (if j = A ∧ B = i ∧ t0 = inverse t then 1 else 0) +
      (if j = B ∧ A = i ∧ inverse t0 = inverse t then 1 else 0) := by
  have h1 : (i = A ∧ B = j ∧ t0 = t) ↔ (j = B ∧ A = i ∧ inverse t0 = inverse t) := by
    constructor
    · rintro ⟨ha, hb, hc⟩; exact ⟨hb.symm, ha.symm, by rw [hc]⟩
    · rintro ⟨ha, hb, hc⟩; exact ⟨hb.symm, ha.symm, inverse_inj.mp hc⟩
  have h2 : (i = B ∧ A = j ∧ inverse t0 = t) ↔ (j = A ∧ B = i ∧ t0 = inverse t) := by
    constructor
    · rintro ⟨ha, hb, hc⟩
      refine ⟨hb.symm, ha.symm, ?_⟩
      rw [← hc, inverse_inverse]
    · rintro ⟨ha, hb, hc⟩
      refine ⟨hb.symm, ha.symm, ?_⟩
      rw [hc, inverse_inverse]
  rw [if_congr h1 rfl rfl, if_congr h2 rfl rfl]
  omega

theorem indicator_single_symm (A : String) (t0 : RefType) (hself : inverse t0 = t0)
    (i j : String) (t : RefType) :
    ((if i = A ∧ A = j ∧ t0 = t then 1 else 0) : Nat) =
    (if j = A ∧ A = i ∧ t0 = inverse t then 1 else 0) := by
  have h : (i = A ∧ A = j ∧ t0 = t) ↔ (j = A ∧ A = i ∧ t0 = inverse t) := by
    constructor
    · rintro ⟨ha, hb, hc⟩
      refine ⟨hb.symm, ha.symm, ?_⟩
      have : inverse t = t0 := by rw [hc] at hself ⊢; exact hself
      rw [← this]
    · rintro ⟨ha, hb, hc⟩
      refine ⟨hb.symm, ha.symm, ?_⟩
      have hit : inverse t0 = t := by
        have := congrArg inverse hc
        rw [inverse_inverse] at this
        exact this
      rw [← hself]; exact hit
  rw [if_congr h rfl rfl]

theorem refsym_cnt_add_pair {ts ts' : List Task} (hsym : RefSym ts)
    (A B : String) (t0 : RefType)
    (h : ∀ x y τ, cnt (refsOf ts' x) y τ =
      cnt (refsOf ts x) y τ + ((if x = A ∧ B = y ∧ t0 = τ then 1 else 0) +
        (if x = B ∧ A = y ∧ inverse t0 = τ then 1 else 0))) :
    RefSym ts' := by
  intro i j t
  rw [h i j t, h j i (inverse t), hsym i j t, indicator_pair_symm A B t0 i j t]

theorem refsym_cnt_add_single {ts ts' : List Task} (hsym : RefSym ts)
    (A : String) (t0 : RefType) (hself : inverse t0 = t0)
    (h : ∀ x y τ, cnt (refsOf ts' x) y τ =
      cnt (refsOf ts x) y τ + (if x = A ∧ A = y ∧ t0 = τ then 1 else 0)) :
    RefSym ts' := by
  intro i j t
  rw [h i j t, h j i (inverse t), hsym i j t, indicator_single_symm A t0 hself i j t]

theorem refsym_cnt_del_pair {ts ts' : List Task} (hsym : RefSym ts)
    (A B : String) (t0 : RefType)
    (h : ∀ x y τ, cnt (refsOf ts' x) y τ +
      ((if x = A ∧ B = y ∧ t0 = τ then 1 else 0) +
        (if x = B ∧ A = y ∧ inverse t0 = τ then 1 else 0)) =
      cnt (refsOf ts x) y τ) :
    RefSym ts' := by
  intro i j t
  have e1 := h i j t
  have e2 := h j i (inverse t)
  have e3 := hsym i j t
  have e4 := indicator_pair_symm A B t0 i j t
  omega

theorem refsym_cnt_del_single {ts ts' : List Task} (hsym : RefSym ts)
    (A : String) (t0 : RefType) (hself : inverse t0 = t0)
    (h : ∀ x y τ, cnt (refsOf ts' x) y τ +
      (if x = A ∧ A = y ∧ t0 = τ then 1 else 0) = cnt (refsOf ts x) y τ) :
    RefSym ts' := by
  intro i j t
  have e1 := h i j t
  have e2 := h j i (inverse t)
  have e3 := hsym i j t
  have e4 := indicator_single_symm A t0 hself i j t
  omega

/-- A board whose tasks all carry empty ref lists is symmetric. -/
theorem refSym_of_refs_nil (ts : List Task) (h : ∀ u ∈ ts, u.refs = []) :
    RefSym ts := by
  have hz : ∀ x y τ, cnt (refsOf ts x) y τ = 0 := by
    intro x y τ
    unfold refsOf
    cases hfx : findTask ts x with
    | none => rfl
    | some u =>
      show cnt u.refs y τ = 0
      rw [h u (findTask_mem hfx)]
      rfl
  intro i j t
  rw [hz i j t, hz j i (inverse t)]

end Clamban

namespace Clamban

/-- Convenience: the refs of a found task. -/
theorem refsOf_found {ts : List Task} {i : String} {u : Task}
    (h : findTask ts i = some u) : refsOf ts i = u.refs := by
  unfold refsOf
  rw [h]

/-- POST /api/tasks/:id/refs preserves ref symmetry: it adds either both a
ref and its inverse, or (on the idempotent/error paths) nothing. -/
theorem postRefs_preserves_refsym (b : Board) (hsym : RefSym b.tasks)
    (id targetId : String) (rt : RefType) (now : String) :
    RefSym (postRefs b id targetId rt now).board.tasks := by
  unfold postRefs
  cases hf : findTask b.tasks id with
  | none => exact hsym
  | some task =>
    dsimp only
    by_cases h0 : targetId = ""
    · rw [if_pos h0]; exact hsym
    · rw [if_neg h0]
      cases hf2 : findTask b.tasks targetId with
      | none => exact hsym
      | some target =>
        dsimp only
        by_cases hdup : TaskRef.mk targetId rt ∈ task.refs
        · rw [if_pos hdup]; exact hsym
        · rw [if_neg hdup]
          dsimp only
          set ts1 := updateRefs b.tasks id (fun rs => rs ++ [TaskRef.mk targetId rt]) now with hts1
          by_cases hBA : targetId = id
          · -- self-ref: source and target are the same task object
            subst hBA
            have h1self : refsOf ts1 targetId = task.refs ++ [TaskRef.mk targetId rt] := by
              rw [hts1]; exact refsOf_updateRefs_found hf _ _
            by_cases hrel : inverse rt = rt
            · -- the inverse is the ref itself: the guard sees the fresh ref and skips
              have hguard : TaskRef.mk targetId (inverse rt) ∈ refsOf ts1 targetId := by
                rw [h1self, hrel]
                exact List.mem_append_right _ (List.mem_singleton.mpr rfl)
              rw [if_pos hguard]
              apply refsym_cnt_add_single hsym targetId rt hrel
              intro x y τ
              by_cases hx : x = targetId
              · subst hx
                rw [h1self, refsOf_found hf, cnt_append, cnt_singleton]
                simp
              · rw [hts1, refsOf_updateRefs_ne hx _ _]
                simp [hx]
            · -- distinct inverse type: both directions are appended to the task
              have hcc : cnt task.refs targetId (inverse rt) = 0 := by
                have h1 := hsym targetId targetId (inverse rt)
                rw [refsOf_found hf, inverse_inverse] at h1
                rw [cnt_eq_zero_of_not_mem hdup] at h1
                exact h1
              have hguard : TaskRef.mk targetId (inverse rt) ∉ refsOf ts1 targetId := by
                rw [h1self]
                intro hmem
                rcases List.mem_append.mp hmem with hm | hm
                · have := mem_iff_cnt_pos.mp hm
                  omega
                · rw [List.mem_singleton] at hm
                  injection hm with h1 h2
                  exact hrel h2
              rw [if_neg hguard]
              have hf1 : findTask ts1 targetId =
                  some { task with refs := task.refs ++ [TaskRef.mk targetId rt], updatedAt := now } := by
                rw [hts1]; exact findTask_updateRefs_found hf _ _
              have h2self : refsOf (updateRefs ts1 targetId (fun rs => rs ++ [TaskRef.mk targetId (inverse rt)]) now) targetId =
                  (task.refs ++ [TaskRef.mk targetId rt]) ++ [TaskRef.mk targetId (inverse rt)] :=
                refsOf_updateRefs_found hf1 _ _
              apply refsym_cnt_add_pair hsym targetId targetId rt
              intro x y τ
              by_cases hx : x = targetId
              · subst hx
                rw [h2self, refsOf_found hf, cnt_append, cnt_append, cnt_singleton, cnt_singleton]
                simp only [true_and]
                omega
              · rw [refsOf_updateRefs_ne hx _ _, hts1, refsOf_updateRefs_ne hx _ _]
                simp [hx]
          · -- distinct source and target tasks
            have hne : targetId ≠ id := hBA
            have h1self : refsOf ts1 id = task.refs ++ [TaskRef.mk targetId rt] := by
              rw [hts1]; exact refsOf_updateRefs_found hf _ _
            have h1tgt : refsOf ts1 targetId = target.refs := by
              rw [hts1, refsOf_updateRefs_ne hne _ _, refsOf_found hf2]
            have hguard : TaskRef.mk id (inverse rt) ∉ refsOf ts1 targetId := by
              rw [h1tgt]
              intro hmem
              have hpos := mem_iff_cnt_pos.mp hmem
              have h1 := hsym targetId id (inverse rt)
              rw [refsOf_found hf2, refsOf_found hf, inverse_inverse] at h1
              rw [cnt_eq_zero_of_not_mem hdup] at h1
              omega
            rw [if_neg hguard]
            have hf1tgt : findTask ts1 targetId = some target := by
              rw [hts1, findTask_updateRefs_ne hne _ _, hf2]
            have h2tgt : refsOf (updateRefs ts1 targetId (fun rs => rs ++ [TaskRef.mk id (inverse rt)]) now) targetId =
                target.refs ++ [TaskRef.mk id (inverse rt)] :=
              refsOf_updateRefs_found hf1tgt _ _
            have h2id : refsOf (updateRefs ts1 targetId (fun rs => rs ++ [TaskRef.mk id (inverse rt)]) now) id =
                task.refs ++ [TaskRef.mk targetId rt] := by
              rw [refsOf_updateRefs_ne (fun h => hne h.symm) _ _, h1self]
            apply refsym_cnt_add_pair hsym id targetId rt
            intro x y τ
            by_cases hx1 : x = id
            · subst hx1
              rw [h2id, refsOf_found hf, cnt_append, cnt_singleton]
              have hxt : ¬(x = targetId) := fun h => hne h.symm
              simp [hxt]
            · by_cases hx2 : x = targetId
              · subst hx2
                rw [h2tgt, refsOf_found hf2, cnt_append, cnt_singleton]
                simp [hBA]
              · rw [refsOf_updateRefs_ne hx2 _ _, hts1, refsOf_updateRefs_ne hx1 _ _]
                simp [hx1, hx2]

end Clamban

namespace Clamban

/-- DELETE /api/tasks/:id/refs/:targetId preserves ref symmetry: it
removes either a ref together with its inverse, or nothing. -/
theorem deleteRefs_preserves_refsym (b : Board) (hsym : RefSym b.tasks)
    (id targetId : String) (now : String) :
    RefSym (deleteRefs b id targetId now).board.tasks := by
  unfold deleteRefs
  cases hf : findTask b.tasks id with
  | none => exact hsym
  | some task =>
    dsimp only
    cases hfr : task.refs.find? (fun x => decide (x.taskId = targetId)) with
    | none =>
      dsimp only
      intro i j t
      have hall : ∀ x, refsOf (updateRefs b.tasks id (fun rs => rs) now) x = refsOf b.tasks x := by
        intro x
        by_cases hx : x = id
        · subst hx
          rw [refsOf_updateRefs_found hf _ _, refsOf_found hf]
        · exact refsOf_updateRefs_ne hx _ _
      rw [hall i, hall j]
      exact hsym i j t
    | some r =>
      dsimp only
      have hrB : r.taskId = targetId := by
        have hp := List.find?_some hfr
        simpa using hp
      have hrmem : r ∈ task.refs := List.mem_of_find?_eq_some hfr
      have e1 : ∀ y τ, cnt (task.refs.eraseP (fun x => decide (x.taskId = targetId))) y τ +
          (if targetId = y ∧ r.type = τ then 1 else 0) = cnt task.refs y τ := by
        intro y τ
        have h := cnt_eraseP_of_find hfr y τ
        rw [hrB] at h
        exact h
      have hc1 : 0 < cnt task.refs targetId r.type := by
        apply mem_iff_cnt_pos.mp
        have hr : r = TaskRef.mk targetId r.type := by
          cases r with
          | mk a bb =>
            simp only at hrB
            rw [hrB]
        exact hr ▸ hrmem
      set ts1 := updateRefs b.tasks id
        (fun rs => rs.eraseP (fun x => decide (x.taskId = targetId))) now with hts1
      have h1id : refsOf ts1 id = task.refs.eraseP (fun x => decide (x.taskId = targetId)) := by
        rw [hts1]; exact refsOf_updateRefs_found hf _ _
      by_cases hBA : targetId = id
      · -- deleting a ref a task holds on itself
        subst hBA
        have hf1 : findTask ts1 targetId =
            some { task with
                   refs := task.refs.eraseP (fun x => decide (x.taskId = targetId)),
                   updatedAt := now } := by
          rw [hts1]; exact findTask_updateRefs_found hf _ _
        rw [hf1]
        dsimp only
        have hcc : cnt task.refs targetId (inverse r.type) = cnt task.refs targetId r.type := by
          have h1 := hsym targetId targetId (inverse r.type)
          rw [refsOf_found hf, inverse_inverse] at h1
          exact h1
        by_cases hrel : inverse r.type = r.type
        · cases hfr2 : (task.refs.eraseP (fun x => decide (x.taskId = targetId))).find?
              (fun x => decide (x.taskId = targetId ∧ x.type = inverse r.type)) with
          | some r2 =>
            have hr2 : r2 = TaskRef.mk targetId (inverse r.type) := by
              have hp := List.find?_some hfr2
              cases r2 with
              | mk a bb =>
                have hab : a = targetId ∧ bb = inverse r.type := by simpa using hp
                rw [hab.1, hab.2]
            have e2 : ∀ y τ,
                cnt ((task.refs.eraseP (fun x => decide (x.taskId = targetId))).eraseP
                  (fun x => decide (x.taskId = targetId ∧ x.type = inverse r.type))) y τ +
                  (if targetId = y ∧ inverse r.type = τ then 1 else 0) =
                cnt (task.refs.eraseP (fun x => decide (x.taskId = targetId))) y τ := by
              intro y τ
              have h := cnt_eraseP_of_find hfr2 y τ
              rw [hr2] at h
              simpa using h
            apply refsym_cnt_del_pair hsym targetId targetId r.type
            intro x y τ
            by_cases hx : x = targetId
            · subst hx
              rw [refsOf_updateRefs_found hf1 _ _, refsOf_found hf]
              have g1 := e1 y τ
              have g2 := e2 y τ
              rw [hrel] at g2
              simp only [true_and]
              rw [hrel]
              omega
            · rw [refsOf_updateRefs_ne hx _ _, hts1, refsOf_updateRefs_ne hx _ _]
              simp [hx]
          | none =>
            have e2 : (task.refs.eraseP (fun x => decide (x.taskId = targetId))).eraseP
                (fun x => decide (x.taskId = targetId ∧ x.type = inverse r.type)) =
                task.refs.eraseP (fun x => decide (x.taskId = targetId)) :=
              eraseP_of_find_none hfr2
            apply refsym_cnt_del_single hsym targetId r.type hrel
            intro x y τ
            by_cases hx : x = targetId
            · subst hx
              rw [refsOf_updateRefs_found hf1 _ _]
              dsimp only
              rw [e2, refsOf_found hf]
              have g1 := e1 y τ
              simp only [eq_self_iff_true, true_and]
              omega
            · rw [refsOf_updateRefs_ne hx _ _, hts1, refsOf_updateRefs_ne hx _ _]
              simp [hx]
        · have hsecond : 0 < cnt (task.refs.eraseP (fun x => decide (x.taskId = targetId)))
              targetId (inverse r.type) := by
            have g1 := e1 targetId (inverse r.type)
            have hind : ¬(targetId = targetId ∧ r.type = inverse r.type) := by
              rintro ⟨-, hh⟩; exact hrel hh.symm
            rw [if_neg hind] at g1
            omega
          have hfr2 : (task.refs.eraseP (fun x => decide (x.taskId = targetId))).find?
              (fun x => decide (x.taskId = targetId ∧ x.type = inverse r.type)) =
              some (TaskRef.mk targetId (inverse r.type)) := find?_pinned hsecond
          have e2 : ∀ y τ,
              cnt ((task.refs.eraseP (fun x => decide (x.taskId = targetId))).eraseP
                (fun x => decide (x.taskId = targetId ∧ x.type = inverse r.type))) y τ +
                (if targetId = y ∧ inverse r.type = τ then 1 else 0) =
              cnt (task.refs.eraseP (fun x => decide (x.taskId = targetId))) y τ := by
            intro y τ
            have h := cnt_eraseP_of_find hfr2 y τ
            simpa using h
          apply refsym_cnt_del_pair hsym targetId targetId r.type
          intro x y τ
          by_cases hx : x = targetId
          · subst hx
            rw [refsOf_updateRefs_found hf1 _ _, refsOf_found hf]
            have g1 := e1 y τ
            have g2 := e2 y τ
            simp only [true_and]
            omega
          · rw [refsOf_updateRefs_ne hx _ _, hts1, refsOf_updateRefs_ne hx _ _]
            simp [hx]
      · -- distinct target task: on a symmetric board it must exist
        have hcT : 0 < cnt (refsOf b.tasks targetId) id (inverse r.type) := by
          have h1 := hsym id targetId r.type
          rw [refsOf_found hf] at h1
          omega
        cases hft : findTask b.tasks targetId with
        | none =>
          exfalso
          rw [refsOf_findTask_none hft] at hcT
          exact absurd hcT (by rw [cnt_nil]; exact lt_irrefl 0)
        | some target =>
          have hRtgt : refsOf b.tasks targetId = target.refs := refsOf_found hft
          have hft1 : findTask ts1 targetId = some target := by
            rw [hts1, findTask_updateRefs_ne hBA _ _, hft]
          rw [hft1]
          dsimp only
          have hposT : 0 < cnt target.refs id (inverse r.type) := by
            rw [← hRtgt]; exact hcT
          have hfr2 : target.refs.find? (fun x => decide (x.taskId = id ∧ x.type = inverse r.type)) =
              some (TaskRef.mk id (inverse r.type)) := find?_pinned hposT
          have e2 : ∀ y τ,
              cnt (target.refs.eraseP (fun x => decide (x.taskId = id ∧ x.type = inverse r.type))) y τ +
                (if id = y ∧ inverse r.type = τ then 1 else 0) = cnt target.refs y τ := by
            intro y τ
            have h := cnt_eraseP_of_find hfr2 y τ
            simpa using h
          apply refsym_cnt_del_pair hsym id targetId r.type
          intro x y τ
          by_cases hx1 : x = id
          · subst hx1
            rw [refsOf_updateRefs_ne (fun h => hBA h.symm) _ _, h1id, refsOf_found hf]
            have g1 := e1 y τ
            have hI2 : ¬(x = targetId ∧ x = y ∧ inverse r.type = τ) := fun hh => hBA hh.1.symm
            rw [if_neg hI2]
            simp only [eq_self_iff_true, true_and]
            omega
          · by_cases hx2 : x = targetId
            · subst hx2
              rw [refsOf_updateRefs_found hft1 _ _, hRtgt]
              have g2 := e2 y τ
              have hI1 : ¬(x = id ∧ x = y ∧ r.type = τ) := fun hh => hBA hh.1
              rw [if_neg hI1]
              simp only [eq_self_iff_true, true_and]
              omega
            · rw [refsOf_updateRefs_ne hx2 _ _, hts1, refsOf_updateRefs_ne hx1 _ _]
              simp [hx1, hx2]

end Clamban

namespace Clamban

/-! ## C1: ref symmetry -/

/-- C1: on every board satisfying the ref-symmetry invariant, both ref
endpoints preserve it — POST /api/tasks/:id/refs adds a ref and its
inverse together (so afterwards every ref `(A, t, B)` still has its
inverse `(B, inverse t, A)`), DELETE /api/tasks/:id/refs/:target removes
a ref and its inverse together, and the idempotent 200 path of POST (the
source ref already exists) changes nothing and writes nothing. -/
theorem C1_refs_two_sided (b : Board) (hsym : RefSym b.tasks)
    (id targetId : String) (rt : RefType) (now : String) :
    RefSym (postRefs b id targetId rt now).board.tasks ∧
    RefSym (deleteRefs b id targetId now).board.tasks ∧
    ((postRefs b id targetId rt now).status = 200 →
      (postRefs b id targetId rt now).board = b ∧
      (postRefs b id targetId rt now).wrote = false) := by
  refine ⟨postRefs_preserves_refsym b hsym id targetId rt now,
          deleteRefs_preserves_refsym b hsym id targetId now, ?_⟩
  unfold postRefs
  cases hf : findTask b.tasks id with
  | none => intro h; exact absurd h (show ¬(404 = 200) by omega)
  | some task =>
    dsimp only
    by_cases h0 : targetId = ""
    · rw [if_pos h0]; intro h; exact absurd h (show ¬(400 = 200) by omega)
    · rw [if_neg h0]
      cases hf2 : findTask b.tasks targetId with
      | none => intro h; exact absurd h (show ¬(404 = 200) by omega)
      | some target =>
        dsimp only
        by_cases hdup : TaskRef.mk targetId rt ∈ task.refs
        · rw [if_pos hdup]; intro _; exact ⟨rfl, rfl⟩
        · rw [if_neg hdup]; dsimp only; intro h; exact absurd h (show ¬(201 = 200) by omega)

/-- C1 witness: the theorem applied to the concrete two-task board of
scenario S1, its symmetry hypothesis discharged explicitly. -/
theorem C1_witness :
    RefSym boardAB.tasks ∧
    RefSym (postRefs boardAB "a1" "b2" RefType.blocks "t1").board.tasks ∧
    RefSym (deleteRefs boardAB "a1" "b2" "t1").board.tasks := by
  have h0 : RefSym boardAB.tasks := by
    apply refSym_of_refs_nil
    intro u hu
    simp only [boardAB, mkTask, List.mem_cons, List.not_mem_nil, or_false] at hu
    rcases hu with h | h <;> subst h <;> rfl
  exact ⟨h0, (C1_refs_two_sided boardAB h0 "a1" "b2" RefType.blocks "t1").1,
         (C1_refs_two_sided boardAB h0 "a1" "b2" RefType.blocks "t1").2.1⟩

end Clamban

namespace Clamban

/-! ## C4: task deletion -/

/-- Unfolding `findTask` over a cons cell. -/
theorem findTask_cons (a : Task) (as : List Task) (j : String) :
    findTask (a :: as) j = if a.id = j then some a else findTask as j := rfl

/-- Unfolding `refsOf` over a cons cell. -/
theorem refsOf_cons (a : Task) (as : List Task) (j : String) :
    refsOf (a :: as) j = if a.id = j then a.refs else refsOf as j := by
  unfold refsOf
  rw [findTask_cons]
  by_cases h : a.id = j
  · rw [if_pos h, if_pos h]
  · rw [if_neg h, if_neg h]

/-- Erasing the first task with one id does not change which task any
other id resolves to. -/
theorem refsOf_eraseTask {ts : List Task} {i j : String} (hne : j ≠ i) :
    refsOf (ts.eraseP fun t => decide (t.id = i)) j = refsOf ts j := by
  induction ts with
  | nil => rfl
  | cons a as ih =>
    by_cases hai : a.id = i
    · rw [List.eraseP_cons_of_pos (by simp [hai]), refsOf_cons,
        if_neg (show ¬(a.id = j) from fun h => hne (h.symm.trans hai))]
    · rw [List.eraseP_cons_of_neg (by simp [hai]), refsOf_cons, refsOf_cons, ih]

/-- C4 counterexample: on a board where a1 blocks b2 (with the inverse ref
on b2), DELETE /api/tasks/a1 removes the task but leaves b2's ref to the
now-deleted a1 in place — the resulting board has a ref pointing at the
deleted id, contradicting "no ref on the resulting board points at the
deleted id". -/
theorem C4_counterexample :
    (deleteTask boardLinked "a1").status = 200 ∧
    findTask (deleteTask boardLinked "a1").board.tasks "a1" = none ∧
    refsOf (deleteTask boardLinked "a1").board.tasks "b2" =
      [TaskRef.mk "a1" RefType.blockedBy] := by
  refine ⟨rfl, by decide, by decide⟩

/-- C4 (amended): DELETE /api/tasks/:id on a present id answers 200 and
writes, removes exactly one task, and leaves every remaining task — refs
included — byte-for-byte unchanged; in particular refs on other tasks that
name the deleted id are NOT stripped and dangle. -/
theorem C4_delete_leaves_refs (b : Board) (id : String) (u : Task)
    (h : findTask b.tasks id = some u) :
    (deleteTask b id).status = 200 ∧
    (deleteTask b id).wrote = true ∧
    (deleteTask b id).board.tasks.length + 1 = b.tasks.length ∧
    (∀ t ∈ (deleteTask b id).board.tasks, t ∈ b.tasks) ∧
    (∀ j, j ≠ id → refsOf (deleteTask b id).board.tasks j = refsOf b.tasks j) := by
  unfold deleteTask
  rw [h]
  dsimp only
  refine ⟨rfl, rfl, ?_, ?_, ?_⟩
  · have hmem : u ∈ b.tasks := findTask_mem h
    have hid : u.id = id := findTask_id h
    have : (b.tasks.eraseP fun t => decide (t.id = id)).length = b.tasks.length - 1 :=
      List.length_eraseP_of_mem hmem (by simp [hid])
    have hpos : 0 < b.tasks.length := List.length_pos.mpr (List.ne_nil_of_mem hmem)
    omega
  · intro t ht
    exact List.mem_of_mem_eraseP ht
  · intro j hj
    exact refsOf_eraseTask hj

/-- C4 witness: the amended theorem on the linked two-task board. -/
theorem C4_witness :
    findTask boardLinked.tasks "a1" = some (mkTask "a1" "A" "backlog" 1 [TaskRef.mk "b2" RefType.blocks]) ∧
    ((deleteTask boardLinked "a1").status = 200 ∧
     (deleteTask boardLinked "a1").wrote = true ∧
     (deleteTask boardLinked "a1").board.tasks.length + 1 = boardLinked.tasks.length ∧
     (∀ t ∈ (deleteTask boardLinked "a1").board.tasks, t ∈ boardLinked.tasks) ∧
     (∀ j, j ≠ "a1" → refsOf (deleteTask boardLinked "a1").board.tasks j = refsOf boardLinked.tasks j)) :=
  ⟨by decide,
   C4_delete_leaves_refs boardLinked "a1"
     (mkTask "a1" "A" "backlog" 1 [TaskRef.mk "b2" RefType.blocks]) (by decide)⟩

end Clamban

namespace Clamban

/-! ## C10: POST /api/tasks always succeeds, with defaults and next order -/

theorem le_listMax_init (m : Rat) (xs : List Rat) : m ≤ listMax m xs := by
  induction xs generalizing m with
  | nil => exact le_refl m
  | cons x xs ih => exact le_trans (le_max_left m x) (ih (max m x))

theorem le_listMax_mem {x : Rat} {xs : List Rat} (m : Rat) (hx : x ∈ xs) :
    x ≤ listMax m xs := by
  induction xs generalizing m with
  | nil => cases hx
  | cons y ys ih =>
    rcases List.mem_cons.mp hx with h | h
    · subst h
      exact le_trans (le_max_right m x) (le_listMax_init _ _)
    · exact ih _ h

theorem listMax_mem_or_init (m : Rat) (xs : List Rat) :
    listMax m xs = m ∨ listMax m xs ∈ xs := by
  induction xs generalizing m with
  | nil => exact Or.inl rfl
  | cons x xs ih =>
    rcases ih (max m x) with h | h
    · rcases max_choice m x with hm | hm
      · exact Or.inl (by rw [listMax, h, hm])
      · exact Or.inr (by rw [listMax, h, hm]; exact List.mem_cons_self _ _)
    · exact Or.inr (List.mem_cons_of_mem _ h)

theorem maxOrderIn_ge {ts : List Task} {col : String} {t : Task}
    (ht : t ∈ ts) (hcol : t.column = col) : t.order ≤ maxOrderIn ts col := by
  unfold maxOrderIn
  have hmem : t.order ∈ (ts.filter fun u => decide (u.column = col)).map Task.order :=
    List.mem_map_of_mem _ (List.mem_filter.mpr ⟨ht, by simp [hcol]⟩)
  cases hf : (ts.filter fun u => decide (u.column = col)).map Task.order with
  | nil => rw [hf] at hmem; cases hmem
  | cons x xs =>
    rw [hf] at hmem
    rcases List.mem_cons.mp hmem with h | h
    · rw [h]; exact le_listMax_init _ _
    · exact le_listMax_mem _ h

theorem maxOrderIn_empty {ts : List Task} {col : String}
    (h : ts.filter (fun u => decide (u.column = col)) = []) :
    maxOrderIn ts col = 0 := by
  unfold maxOrderIn
  rw [h]
  rfl

theorem maxOrderIn_mem {ts : List Task} {col : String}
    (h : ts.filter (fun u => decide (u.column = col)) ≠ []) :
    ∃ t ∈ ts, t.column = col ∧ maxOrderIn ts col = t.order := by
  unfold maxOrderIn
  cases hf : (ts.filter fun u => decide (u.column = col)).map Task.order with
  | nil => exact absurd (List.map_eq_nil_iff.mp hf) h
  | cons x xs =>
    have hmem : listMax x xs ∈ (ts.filter fun u => decide (u.column = col)).map Task.order := by
      rw [hf]
      rcases listMax_mem_or_init x xs with hm | hm
      · rw [hm]; exact List.mem_cons_self _ _
      · exact List.mem_cons_of_mem _ hm
    obtain ⟨t, htf, hto⟩ := List.mem_map.mp hmem
    have hmf := List.mem_filter.mp htf
    exact ⟨t, hmf.1, by simpa using hmf.2, hto.symm⟩

/-- C10: every POST /api/tasks request succeeds with 201 and a board
write, regardless of body contents; missing or falsy fields default
(title "Untitled", column "backlog", priority "medium", type "task",
tags []); the created task has empty comments, context and refs, equal
createdAt and updatedAt, and an order strictly greater than every
existing order in its column — exactly one more than the maximum there,
hence 1 when the column is empty. -/
theorem C10_post_task_defaults (b : Board) (body : PostBody) (newId now : String) :
    (postTask b body newId now).1.status = 201 ∧
    (postTask b body newId now).1.wrote = true ∧
    (postTask b body newId now).2.comments = [] ∧
    (postTask b body newId now).2.context = [] ∧
    (postTask b body newId now).2.refs = [] ∧
    (postTask b body newId now).2.createdAt = now ∧
    (postTask b body newId now).2.updatedAt = now ∧
    ((body.title = none ∨ body.title = some "") →
      (postTask b body newId now).2.title = "Untitled") ∧
    ((body.column = none ∨ body.column = some "") →
      (postTask b body newId now).2.column = "backlog") ∧
    ((body.priority = none ∨ body.priority = some "") →
      (postTask b body newId now).2.priority = "medium") ∧
    ((body.taskType = none ∨ body.taskType = some "") →
      (postTask b body newId now).2.taskType = "task") ∧
    (body.tags = none → (postTask b body newId now).2.tags = []) ∧
    (postTask b body newId now).1.board.tasks = b.tasks ++ [(postTask b body newId now).2] ∧
    (∀ t ∈ b.tasks, t.column = (postTask b body newId now).2.column →
      t.order < (postTask b body newId now).2.order) ∧
    (b.tasks.filter (fun t => decide (t.column = (postTask b body newId now).2.column)) = [] →
      (postTask b body newId now).2.order = 1) ∧
    (b.tasks.filter (fun t => decide (t.column = (postTask b body newId now).2.column)) ≠ [] →
      ∃ t ∈ b.tasks, t.column = (postTask b body newId now).2.column ∧
        (postTask b body newId now).2.order = t.order + 1) := by
  refine ⟨rfl, rfl, rfl, rfl, rfl, rfl, rfl, ?_, ?_, ?_, ?_, ?_, rfl, ?_, ?_, ?_⟩
  · rintro (h | h) <;> simp [postTask, effStr, h]
  · rintro (h | h) <;> simp [postTask, effStr, h]
  · rintro (h | h) <;> simp [postTask, effStr, h]
  · rintro (h | h) <;> simp [postTask, effStr, h]
  · intro h; simp [postTask, h]
  · intro t ht hcol
    have hle : t.order ≤ maxOrderIn b.tasks (effStr body.column "backlog") :=
      maxOrderIn_ge ht hcol
    calc t.order ≤ maxOrderIn b.tasks (effStr body.column "backlog") := hle
    _ < maxOrderIn b.tasks (effStr body.column "backlog") + 1 := lt_add_one _
  · intro h
    have h' : b.tasks.filter (fun t => decide (t.column = effStr body.column "backlog")) = [] := h
    show maxOrderIn b.tasks (effStr body.column "backlog") + 1 = 1
    rw [maxOrderIn_empty h', zero_add]
  · intro h
    have h' : b.tasks.filter (fun t => decide (t.column = effStr body.column "backlog")) ≠ [] := h
    obtain ⟨t, htm, hcol, hord⟩ := maxOrderIn_mem h'
    refine ⟨t, htm, hcol, ?_⟩
    show maxOrderIn b.tasks (effStr body.column "backlog") + 1 = t.order + 1
    rw [hord]

/-- C10 witness: the theorem at a concrete empty body on the empty board,
with the interesting consequences evaluated. -/
theorem C10_witness :
    (postTask emptyBoard emptyPostBody "id1" "t1").1.status = 201 ∧
    (postTask emptyBoard emptyPostBody "id1" "t1").2.title = "Untitled" ∧
    (postTask emptyBoard emptyPostBody "id1" "t1").2.column = "backlog" ∧
    (postTask emptyBoard emptyPostBody "id1" "t1").2.order = 1 := by
  have h := C10_post_task_defaults emptyBoard emptyPostBody "id1" "t1"
  refine ⟨h.1, ?_, ?_, ?_⟩
  · exact h.2.2.2.2.2.2.2.1 (Or.inl rfl)
  · exact h.2.2.2.2.2.2.2.2.1 (Or.inl rfl)
  · exact h.2.2.2.2.2.2.2.2.2.2.2.2.2.2.1 (by rfl)

end Clamban

namespace Clamban

/-! ## C5: column validation does not exist -/

/-- C5 counterexample: a POST /api/tasks request whose body carries the
unknown column value "bogus" is NOT rejected — it answers 201, writes the
board, and stores the task with column "bogus". -/
theorem C5_counterexample :
    (postTask emptyBoard bogusBody "id1" "t1").1.status = 201 ∧
    (postTask emptyBoard bogusBody "id1" "t1").1.wrote = true ∧
    (postTask emptyBoard bogusBody "id1" "t1").2.column = "bogus" := by
  refine ⟨rfl, rfl, by decide⟩

/-- C5 (amended): neither POST /api/tasks nor PATCH /api/tasks/:id
validates the column: POST always answers 201 and writes, storing the
body's column string (defaulting only a missing or empty one to
"backlog"), and PATCH on a present id always answers 200 and writes,
storing whatever fields — column included — the body carries. -/
theorem C5_no_column_validation :
    (∀ (b : Board) (body : PostBody) (newId now : String),
      (postTask b body newId now).1.status = 201 ∧
      (postTask b body newId now).1.wrote = true ∧
      (postTask b body newId now).2.column = effStr body.column "backlog") ∧
    (∀ (b : Board) (id : String) (p : PatchBody) (now : String) (u : Task),
      findTask b.tasks id = some u →
      (patchTask b id p now).status = 200 ∧
      (patchTask b id p now).wrote = true ∧
      findTask (patchTask b id p now).board.tasks id = some (applyPatch u p now)) := by
  constructor
  · intro b body newId now
    exact ⟨rfl, rfl, rfl⟩
  · intro b id p now u h
    unfold patchTask
    rw [h]
    dsimp only
    refine ⟨rfl, rfl, ?_⟩
    rw [findTask_updateTask b.tasks id id (fun t => applyPatch t p now) (fun t => rfl),
      if_pos rfl, h]
    rfl

/-- C5 witness: the amended theorem at concrete inputs carrying unknown
column values. -/
theorem C5_witness :
    ((postTask emptyBoard bogusBody "id1" "t1").1.status = 201 ∧
     (postTask emptyBoard bogusBody "id1" "t1").1.wrote = true ∧
     (postTask emptyBoard bogusBody "id1" "t1").2.column = effStr bogusBody.column "backlog") ∧
    ((patchTask boardAB "a1" bogusPatch "t2").status = 200 ∧
     (patchTask boardAB "a1" bogusPatch "t2").wrote = true) := by
  refine ⟨C5_no_column_validation.1 emptyBoard bogusBody "id1" "t1", ?_⟩
  have h := C5_no_column_validation.2 boardAB "a1" bogusPatch "t2"
    (mkTask "a1" "A" "backlog" 1 []) (by decide)
  exact ⟨h.1, h.2.1⟩

end Clamban

namespace Clamban

/-! ## C6: context path confinement -/

/-- C6: on an existing task, POST /api/tasks/:id/context rejects an
absolute path, a missing team, and a path whose resolution escapes the
team's projectDir, each with 400 and no board write; an accepted path is
stored as the absolute path resolved under projectDir (the stored string
starts at the filesystem root and passes the under-projectDir check), and
a path resolving to an already-stored one is deduplicated: 201 with no
write and no change. -/
theorem C6_context_confinement (b : Board) (id : String) (u : Task)
    (h : findTask b.tasks id = some u) :
    (∀ raw note now, isAbsolute raw = true →
      postContext b id (some raw) note now = ⟨400, b, false⟩) ∧
    (∀ raw note now, b.meta.team = none →
      (postContext b id (some raw) note now).status = 400 ∧
      (postContext b id (some raw) note now).wrote = false ∧
      (postContext b id (some raw) note now).board = b) ∧
    (∀ team raw note now, b.meta.team = some team → raw ≠ "" →
      isAbsolute raw = false → team.projectDir ≠ "" →
      underProjectDir team.projectDir (resolveAbs team.projectDir raw) = false →
      postContext b id (some raw) note now = ⟨400, b, false⟩) ∧
    (∀ team raw note now, b.meta.team = some team → raw ≠ "" →
      isAbsolute raw = false → team.projectDir ≠ "" →
      underProjectDir team.projectDir (resolveAbs team.projectDir raw) = true →
      (postContext b id (some raw) note now).status = 201 ∧
      isAbsolute (resolveAbs team.projectDir raw) = true ∧
      ((u.context.any fun f => decide (f.path = resolveAbs team.projectDir raw)) = true →
        (postContext b id (some raw) note now).board = b ∧
        (postContext b id (some raw) note now).wrote = false) ∧
      ((u.context.any fun f => decide (f.path = resolveAbs team.projectDir raw)) = false →
        (postContext b id (some raw) note now).wrote = true ∧
        findTask (postContext b id (some raw) note now).board.tasks id =
          some { u with
                 context := u.context ++ [⟨resolveAbs team.projectDir raw, note⟩],
                 updatedAt := now })) := by
  refine ⟨?_, ?_, ?_, ?_⟩
  · intro raw note now habs
    unfold postContext
    rw [h]
    dsimp only
    by_cases h0 : raw = ""
    · rw [if_pos h0]
    · rw [if_neg h0, if_pos habs]
  · intro raw note now hteam
    unfold postContext
    rw [h]
    dsimp only
    by_cases h0 : raw = ""
    · rw [if_pos h0]; exact ⟨rfl, rfl, rfl⟩
    · rw [if_neg h0]
      by_cases habs : isAbsolute raw = true
      · rw [if_pos habs]; exact ⟨rfl, rfl, rfl⟩
      · rw [if_neg habs, hteam]
        exact ⟨rfl, rfl, rfl⟩
  · intro team raw note now hteam h0 habs hpd hesc
    unfold postContext
    rw [h]
    dsimp only
    rw [if_neg h0, if_neg (by rw [habs]; exact Bool.false_ne_true), hteam]
    dsimp only
    rw [if_neg hpd, if_pos (by rw [hesc]; rfl)]
  · intro team raw note now hteam h0 habs hpd hunder
    unfold postContext
    rw [h]
    dsimp only
    rw [if_neg h0, if_neg (by rw [habs]; exact Bool.false_ne_true), hteam]
    dsimp only
    rw [if_neg hpd, if_neg (by rw [hunder]; exact Bool.false_ne_true)]
    refine ⟨?_, rfl, ?_, ?_⟩
    · by_cases hdup : (u.context.any fun f => decide (f.path = resolveAbs team.projectDir raw)) = true
      · rw [if_pos hdup]
      · rw [if_neg hdup]
    · intro hdup
      rw [if_pos hdup]
      exact ⟨rfl, rfl⟩
    · intro hdup
      rw [if_neg (by rw [hdup]; exact Bool.false_ne_true)]
      refine ⟨rfl, ?_⟩
      dsimp only
      rw [findTask_updateTask b.tasks id id
        (fun t => { t with
          context := t.context ++ [⟨resolveAbs team.projectDir raw, note⟩],
          updatedAt := now }) (fun t => rfl), if_pos rfl, h]
      rfl

/-- C6 witness: the theorem on scenario S3 — projectDir /tmp/p, the
escaping path ../etc/passwd and the accepted path src/a.ts. -/
theorem C6_witness :
    (postContext boardCtx "t1" (some "../etc/passwd") none "t2" =
      ⟨400, boardCtx, false⟩) ∧
    (postContext boardCtx "t1" (some "/etc/passwd") none "t2" =
      ⟨400, boardCtx, false⟩) ∧
    (postContext boardCtx "t1" (some "src/a.ts") none "t2").status = 201 := by
  have h := C6_context_confinement boardCtx "t1" (mkTask "t1" "T" "backlog" 1 []) (by decide)
  refine ⟨?_, ?_, ?_⟩
  · exact h.2.2.1 { teamName := "team", projectDir := "/tmp/p", model := none, maxTurns := none }
      "../etc/passwd" none "t2" (by decide) (by decide) (by decide) (by decide) (by decide)
  · exact h.1 "/etc/passwd" none "t2" (by decide)
  · exact (h.2.2.2 { teamName := "team", projectDir := "/tmp/p", model := none, maxTurns := none }
      "src/a.ts" none "t2" (by decide) (by decide) (by decide) (by decide) (by decide)).1

end Clamban

namespace Clamban

/-! ## C8: search endpoint (modelled from the spec) -/

/-- C8: GET /api/tasks/search with a `q` parameter answers 200 with
exactly the case-insensitive title/description/tag matches, filtered to
the given column when one is present, truncated to the effective limit —
at most 100 results always, at most 20 when no limit parameter is given
(the same default applies to a non-numeric limit); a request without `q`
is a 400. -/
theorem C8_search_contract (b : Board) (qs : String) (col : Option String)
    (lim : Option String) :
    (searchRoute b (some qs) col lim).1 = 200 ∧
    (searchRoute b (some qs) col lim).2 =
      (b.tasks.filter fun t => taskMatches t qs && colOk col t).take (searchLimit lim) ∧
    (∀ t ∈ (searchRoute b (some qs) col lim).2,
      t ∈ b.tasks ∧ taskMatches t qs = true ∧ ∀ c, col = some c → t.column = c) ∧
    (searchRoute b (some qs) col lim).2.length ≤ 100 ∧
    (lim = none → (searchRoute b (some qs) col lim).2.length ≤ 20) ∧
    (searchRoute b none col lim).1 = 400 := by
  refine ⟨rfl, rfl, ?_, ?_, ?_, rfl⟩
  · intro t ht
    have htf : t ∈ b.tasks.filter fun u => taskMatches u qs && colOk col u :=
      List.take_subset _ _ ht
    have hmf := List.mem_filter.mp htf
    have hsplit := (Bool.and_eq_true _ _).mp hmf.2
    refine ⟨hmf.1, hsplit.1, ?_⟩
    intro c hc
    subst hc
    exact of_decide_eq_true hsplit.2
  · calc (searchRoute b (some qs) col lim).2.length
        ≤ searchLimit lim := List.length_take_le _ _
    _ ≤ 100 := min_le_right _ _
  · intro hl
    subst hl
    calc (searchRoute b (some qs) col none).2.length
        ≤ searchLimit none := List.length_take_le _ _
    _ ≤ 20 := by decide

/-- C8 witness: the theorem on a concrete board, with the search result
evaluated (title substring match, case-insensitive). -/
theorem C8_witness :
    ((searchRoute searchBoard (some "auth") none none).1 = 200 ∧
     ∀ t ∈ (searchRoute searchBoard (some "auth") none none).2,
       t ∈ searchBoard.tasks ∧ taskMatches t "auth" = true ∧
       ∀ c, (none : Option String) = some c → t.column = c) ∧
    (searchRoute searchBoard (some "auth") none none).2 =
      [mkTask "1" "Fix Authentication Bug" "backlog" 1 []] := by
  have h := C8_search_contract searchBoard "auth" none none
  exact ⟨⟨h.1, h.2.2.1⟩, by decide⟩

end Clamban
